import Mathlib

/-!
Verification of the dependency-to-vulnerability correlation engine of
`scripts/cve_security_check.py` (boost-conan-cmake).

The Python script is shallowly embedded below: dictionaries become
structures whose fields are `Option` when the corresponding key may be
absent or `None`, Python string truthiness (`None` and `""` are falsy)
is modelled explicitly, numeric CVSS scores become `ℚ`, and network
calls become oracle functions `… → Except Unit …` together with an
explicit log of issued calls.  Exceptions that escape a function are
modelled with `Except`; exceptions swallowed at a call site are handled
where the source handles them.
-/

namespace CveSecurityCheck

/-! ## Python-semantics helpers -/

/-- Python truthiness of an optional string: `None` and `""` are falsy. -/
def pyTruthy : Option String → Bool
  | some s => s ≠ ""
  | none => false

/-- `a or b` for an optional string `a` and a string default `b`. -/
def pyStrOr (a : Option String) (b : String) : String :=
  match a with
  | some s => if s = "" then b else s
  | none => b

/-- `x if truthy else None`: collapses `None` and `""` to `none`. -/
def truthyOpt : Option String → Option String
  | some s => if s = "" then none else some s
  | none => none

/-- Python `str.upper()` (character-wise, as core `Char.toUpper`). -/
def pyUpper (s : String) : String := String.mk (s.data.map Char.toUpper)

/-- Python `str.lower()` (character-wise, as core `Char.toLower`). -/
def pyLowerStr (s : String) : String := String.mk (s.data.map Char.toLower)

/-- Python `str.strip()` (whitespace at both ends). -/
def pyStrip (s : String) : String :=
  String.mk (((s.data.dropWhile Char.isWhitespace).reverse.dropWhile Char.isWhitespace).reverse)

/-- `_clean_version`: `re.sub(r"\s*\(installed\)\s*$", "", ver).strip()`.
The regex removes a trailing `"(installed)"` marker (with surrounding
whitespace, which the final `strip()` would remove anyway). -/
def cleanVersion (s : String) : String :=
  let revTrimmed := s.data.reverse.dropWhile Char.isWhitespace
  if List.isPrefixOf "(installed)".data.reverse revTrimmed then
    pyStrip (String.mk ((revTrimmed.drop 11).reverse))
  else pyStrip s

/-! ## Data model: findings and source responses -/

/-- A CVSS data block (`cvssData` in NVD responses): the two fields the
script reads. -/
structure Cvss where
  baseSeverity : Option String
  baseScore : Option ℚ
deriving DecidableEq

/-- One entry of an OSV vulnerability `severity` list; the script only
reads its `severity` key. -/
structure OsvSeverityEntry where
  severity : Option String
deriving DecidableEq

/-- A reference entry; the script only reads its `url` key. -/
structure UrlRef where
  url : Option String
deriving DecidableEq

/-- One event of an OSV affected range (`fixed` / `limit` keys). -/
structure OsvEvent where
  fixed : Option String
  limit : Option String
deriving DecidableEq

/-- One OSV range.  `events` is `none` when the `events` key is absent
(the script then uses the default `[{}]` for the last-event access but
`[]` for the event loop) and `some l` when present with value `l`. -/
structure OsvRange where
  events : Option (List OsvEvent)
deriving DecidableEq

/-- One OSV `affected` entry; `aff.get("ranges") or []` collapses an
absent or empty `ranges` key, so a plain list is faithful. -/
structure OsvAffected where
  ranges : List OsvRange
deriving DecidableEq

/-- The canonical finding record built by the normalizers.  Keys the
respective normalizer does not set are `none` / `[]`: this is
observationally faithful because every reader uses `.get(...)`. -/
structure Finding where
  source : String
  id : Option String
  package : Option String
  ecosystem : Option String
  version : Option String
  summary : Option String
  severity : Option String
  cvss : Option Cvss
  references : List (Option String)
  aliases : List String
  affected : List OsvAffected
deriving DecidableEq

/-- An OSV result's embedded `package` object. -/
structure OsvPackage where
  name : Option String
  ecosystem : Option String
deriving DecidableEq

/-- One vulnerability entry of an OSV batch result. -/
structure OsvVuln where
  id : Option String
  summary : Option String
  severity : List OsvSeverityEntry
  references : List UrlRef
  aliases : List String
  affected : List OsvAffected
deriving DecidableEq

/-- One positional result of an OSV `querybatch` response. -/
structure OsvResult where
  package : Option OsvPackage
  version : Option String
  vulns : List OsvVuln
deriving DecidableEq

/-- An OSV `querybatch` response (`resp.get("results") or []`). -/
structure OsvResp where
  results : List OsvResult
deriving DecidableEq

/-- One metric entry of an NVD metrics block. -/
structure NvdMetricEntry where
  cvssData : Option Cvss
deriving DecidableEq

/-- The NVD `metrics` block; each key is `none` when absent. -/
structure NvdMetrics where
  cvssMetricV31 : Option (List NvdMetricEntry)
  cvssMetricV30 : Option (List NvdMetricEntry)
deriving DecidableEq

/-- One NVD description entry (only `value` is read). -/
structure NvdDescription where
  value : Option String
deriving DecidableEq

/-- The `cve` object of one NVD vulnerability item. -/
structure NvdCve where
  id : Option String
  metrics : NvdMetrics
  descriptions : List NvdDescription
  references : List UrlRef
deriving DecidableEq

/-- One item of an NVD `vulnerabilities` array. -/
structure NvdVulnItem where
  cve : NvdCve
deriving DecidableEq

/-- An NVD CVE-API response (`data.get("vulnerabilities") or []`). -/
structure NvdResp where
  vulnerabilities : List NvdVulnItem
deriving DecidableEq

/-! ## Severity classification (`_sev_order`, `_highest_severity`,
`_severity_of`) -/

/-- `_sev_order`: rank of a severity label, `-1` for anything
unrecognized. -/
def sevOrder (sev : String) : Int :=
  let u := pyUpper sev
  if u = "LOW" then 0
  else if u = "MEDIUM" then 1
  else if u = "HIGH" then 2
  else if u = "CRITICAL" then 3
  else -1

/-- The label `_highest_severity` computes for one finding:
`(v.get("severity") or (v.get("cvss") or {}).get("baseSeverity") or
"UNKNOWN").upper()`. -/
def rawSevLabel (v : Finding) : String :=
  pyUpper (pyStrOr v.severity (pyStrOr (v.cvss.bind Cvss.baseSeverity) "UNKNOWN"))

/-- One step of the `_highest_severity` loop: keep the strictly better
label. -/
def highestSeverityStep (acc : String × Int) (v : Finding) : String × Int :=
  let sev := rawSevLabel v
  let s := sevOrder sev
  if acc.2 < s then (sev, s) else acc

/-- `_highest_severity`: fold starting from `("UNKNOWN", -1)`. -/
def highestSeverity (vulns : List Finding) : String :=
  (vulns.foldl highestSeverityStep ("UNKNOWN", -1)).1

/-- `_severity_of`: explicit label, else CVSS `baseSeverity`, else a
threshold on `baseScore`, else `"UNKNOWN"`.  The source tests truthiness
of the uppercased label; since `upper()` preserves emptiness this is the
same as testing the raw value, which is how it is written here. -/
def severityOf (v : Finding) : String :=
  if pyTruthy v.severity then pyUpper (v.severity.getD "")
  else if pyTruthy (v.cvss.bind Cvss.baseSeverity) then
    pyUpper ((v.cvss.bind Cvss.baseSeverity).getD "")
  else
    match v.cvss.bind Cvss.baseScore with
    | some score =>
      if 9 ≤ score then "CRITICAL"
      else if 7 ≤ score then "HIGH"
      else if 4 ≤ score then "MEDIUM"
      else "LOW"
    | none => "UNKNOWN"

/-! ## Deduplication (`_dedupe_findings`) -/

/-- The identity key of a finding: its `id` when truthy, otherwise the
composite `(source, package, version, summary)` tuple.  A string key and
a tuple key are never equal in Python, so the two shapes are kept
disjoint. -/
inductive DedupKey where
  | byId (id : String)
  | byFields (source : String) (pkg version summary : Option String)
deriving DecidableEq

/-- Key extraction of `_dedupe_findings`. -/
def dedupKey (f : Finding) : DedupKey :=
  match f.id with
  | some s =>
    if s = "" then .byFields f.source f.package f.version f.summary else .byId s
  | none => .byFields f.source f.package f.version f.summary

/-- The `seen`-set loop of `_dedupe_findings`. -/
def dedupeGo (seen : List DedupKey) : List Finding → List Finding
  | [] => []
  | it :: rest =>
    if dedupKey it ∈ seen then dedupeGo seen rest
    else it :: dedupeGo (dedupKey it :: seen) rest

/-- `_dedupe_findings`. -/
def dedupeFindings (items : List Finding) : List Finding := dedupeGo [] items

/-! ## OSV finding normalizer (`_osv_results_to_findings`) -/

/-- The severity scan of `_osv_results_to_findings`:
`sev = None; for sv in v.get("severity") or []: sev = sv.get("severity") or sev`.
Each entry carrying a truthy value overwrites the accumulator. -/
def osvSevScan (entries : List OsvSeverityEntry) : Option String :=
  entries.foldl (fun acc e => (truthyOpt e.severity).or acc) none

/-- One emitted finding for one OSV vulnerability entry. -/
def osvVulnToFinding (pkgName eco ver : Option String) (v : OsvVuln) : Finding :=
  { source := "OSV", id := v.id, package := pkgName, ecosystem := eco,
    version := ver, summary := v.summary, severity := osvSevScan v.severity,
    cvss := none, references := v.references.map UrlRef.url,
    aliases := v.aliases, affected := v.affected }

/-- Attribution of result index `idx`: the positional metadata when in
range and carrying a truthy package name, else the result's own embedded
`package` / `version` fields. -/
def resultAttribution (meta : List (String × String × String)) (idx : Nat)
    (res : OsvResult) : Option String × Option String × Option String :=
  match meta.get? idx with
  | some (a, b, c) =>
    if a = "" then
      (res.package.bind OsvPackage.name, res.package.bind OsvPackage.ecosystem, res.version)
    else (some a, some b, some c)
  | none =>
    (res.package.bind OsvPackage.name, res.package.bind OsvPackage.ecosystem, res.version)

/-- `_osv_results_to_findings`: one finding per vulnerability entry of
each positional result, attributed by position. -/
def osvResultsToFindings (resp : OsvResp) (meta : List (String × String × String)) :
    List Finding :=
  resp.results.enum.flatMap (fun p =>
    let attr := resultAttribution meta p.1 p.2
    p.2.vulns.map (osvVulnToFinding attr.1 attr.2.1 attr.2.2))

/-! ## NVD finding normalizer (`_nvd_results_to_findings`) -/

/-- The metric-selection loop shared by `_nvd_results_to_findings` and
`_enrich_osv_with_nvd`: the first of `cvssMetricV31`, `cvssMetricV30`
that is present and non-empty; `some d` means key found with first-entry
`cvssData` `d`, `none` means no usable metric block. -/
def pickCvssMetric (m : NvdMetrics) : Option (Option Cvss) :=
  match m.cvssMetricV31 with
  | some (e :: _) => some e.cvssData
  | _ =>
    match m.cvssMetricV30 with
    | some (e :: _) => some e.cvssData
    | _ => none

/-- `_nvd_results_to_findings`. -/
def nvdResultsToFindings (resp : NvdResp) (pkg version : String) : List Finding :=
  resp.vulnerabilities.map (fun item =>
    { source := "NVD", id := item.cve.id, package := some pkg, ecosystem := none,
      version := some version,
      summary := (match item.cve.descriptions with | [] => none | d :: _ => d.value),
      severity := none, cvss := (pickCvssMetric item.cve.metrics).join,
      references := item.cve.references.map UrlRef.url, aliases := [], affected := [] })

/-! ## Cross-enrichment (`_enrich_osv_with_nvd`) -/

/-- The network-call log; one constructor per HTTP request the script can
issue. -/
inductive OsvQuery where
  | pkg (name ecosystem version : String)
  | commit (hash : String)
deriving DecidableEq

/-- A Python string as a list of characters, used for the CPE machinery
where the code indexes and joins character-level fields. -/
abbrev PyStr := List Char

inductive NetCall where
  | osvBatch (queries : List OsvQuery)
  | nvdCpeSearch (keyword : String)
  | nvdCvesByCpe (cpe : PyStr)
  | nvdCveById (cveId : String)
deriving DecidableEq

/-- The `UBUNTU-CVE-YYYY-NNNN` rewrite: `re.match(r"UBUNTU-CVE-(\d{4}-\d+)$", fid)`
succeeds exactly when the rest after the prefix is four digits, a dash,
and one or more digits. -/
def ubuntuCveRewrite (fid : String) : Option String :=
  if fid.startsWith "UBUNTU-CVE-" then
    let rest := fid.drop 11
    match rest.splitOn "-" with
    | [y, n] =>
      if y.length = 4 && y.data.all Char.isDigit && n ≠ "" && n.data.all Char.isDigit
      then some ("CVE-" ++ rest) else none
    | _ => none
  else none

/-- CVE-identifier recovery of `_enrich_osv_with_nvd`: first alias with a
`CVE-` prefix, else the rewritten `UBUNTU-CVE-…` id, else the finding's
own id when it already has a `CVE-` prefix. -/
def recoverCveId (f : Finding) : Option String :=
  match f.aliases.filter (fun a => a.startsWith "CVE-") with
  | c :: _ => some c
  | [] =>
    let fid := f.id.getD ""
    match ubuntuCveRewrite fid with
    | some c => some c
    | none => if fid.startsWith "CVE-" then some fid else none

/-- Enrichment of one finding; returns the (possibly updated) finding and
the issued network calls.  Oracle failure and empty/unusable responses
are swallowed (`except Exception: pass`), leaving the finding as is. -/
def enrichOne (nvdById : String → Except Unit NvdResp) (f : Finding) :
    Finding × List NetCall :=
  if f.source ≠ "OSV" || pyTruthy f.severity then (f, [])
  else
    match recoverCveId f with
    | none => (f, [])
    | some cid =>
      match nvdById cid with
      | .error _ => (f, [NetCall.nvdCveById cid])
      | .ok data =>
        match data.vulnerabilities with
        | [] => (f, [NetCall.nvdCveById cid])
        | item :: _ =>
          match pickCvssMetric item.cve.metrics with
          | none => (f, [NetCall.nvdCveById cid])
          | some c => ({ f with cvss := c }, [NetCall.nvdCveById cid])

/-- `_enrich_osv_with_nvd` over the whole list (the Python version
updates the dictionaries in place; functionally each element is
replaced). -/
def enrichOsvWithNvd (nvdById : String → Except Unit NvdResp) :
    List Finding → List Finding × List NetCall
  | [] => ([], [])
  | f :: rest =>
    let head := enrichOne nvdById f
    let tail := enrichOsvWithNvd nvdById rest
    (head.1 :: tail.1, head.2 ++ tail.2)

/-! ## Lexicographic string order and `sorted(set(...))` -/

/-- Python's lexicographic `<` on strings, character-wise by code point. -/
def charListLt : List Char → List Char → Bool
  | [], [] => false
  | [], _ :: _ => true
  | _ :: _, [] => false
  | a :: as, b :: bs => a < b || (a == b && charListLt as bs)

/-- Python `<` on strings. -/
def strLtB (a b : String) : Bool := charListLt a.data b.data

/-- Sorted-set insertion: keeps the list strictly increasing and drops an
element already present. -/
def insertStr (s : String) : List String → List String
  | [] => [s]
  | t :: ts =>
    if strLtB s t then s :: t :: ts
    else if s = t then t :: ts
    else t :: insertStr s ts

/-- `sorted(set(l))`: the strictly increasing enumeration of the distinct
elements of `l`. -/
def pySortedSet (l : List String) : List String :=
  l.foldl (fun acc s => insertStr s acc) []

/-! ## Fixed-version extraction (`_osv_fixed_versions`) -/

/-- Truthy `fixed` values of a range's events, in order
(`for ev in r.get("events") or []` with `if fx: fixed.add(fx)`). -/
def rangeFixes (r : OsvRange) : List String :=
  (r.events.getD []).filterMap (fun ev => truthyOpt ev.fixed)

/-- The `last = r.get("events", [{}])[-1]` access followed by
`if last.get("limit")`: an absent `events` key yields the default `[{}]`
whose last element has no `limit`; an explicitly empty list makes
`[][-1]` raise `IndexError`. -/
def rangeLastLimit : OsvRange → Except Unit (List String)
  | ⟨none⟩ => .ok []
  | ⟨some []⟩ => .error ()
  | ⟨some (e :: es)⟩ =>
    .ok (((e :: es).getLast?.bind (fun ev => truthyOpt ev.limit)).toList)

/-- Contribution of one range: its events' `fixed` values plus the last
event's `limit` whenever that is truthy. -/
def rangeContrib (r : OsvRange) : Except Unit (List String) :=
  match rangeLastLimit r with
  | .error e => .error e
  | .ok lim => .ok (rangeFixes r ++ lim)

/-- All ranges in traversal order, propagating the first `IndexError`. -/
def collectRanges : List OsvRange → Except Unit (List String)
  | [] => .ok []
  | r :: rs =>
    match rangeContrib r, collectRanges rs with
    | .ok a, .ok b => .ok (a ++ b)
    | .error e, _ => .error e
    | _, .error e => .error e

/-- `_osv_fixed_versions`: `sorted(fixed)` over the collected set. -/
def osvFixedVersions (f : Finding) : Except Unit (List String) :=
  match collectRanges (f.affected.flatMap OsvAffected.ranges) with
  | .ok l => .ok (pySortedSet l)
  | .error e => .error e

/-! ## CPE resolution (`guess_cpe_for_conan`)

The CPE string is manipulated as a character list so that Python
`split(":")` / `":".join(...)` have a directly reasoned-about model. -/

/-- Python `s.split(c)` for a one-character separator: never returns an
empty list, `"".split(c) = [""]`. -/
def splitOnC (c : Char) : PyStr → List PyStr
  | [] => [[]]
  | x :: xs =>
    if x = c then [] :: splitOnC c xs
    else
      match splitOnC c xs with
      | h :: t => (x :: h) :: t
      | [] => [[x]]

/-- Python `c.join(l)`. -/
def joinC (c : Char) : List PyStr → PyStr
  | [] => []
  | [p] => p
  | p :: ps => p ++ c :: joinC c ps

/-- Python `str.lower()` on a character list. -/
def pyLower (s : PyStr) : PyStr := s.map Char.toLower

/-- One NVD CPE catalog item; `cpeName` is `none` when the nested
`cpe.cpeName` key is absent (a falsy empty value is skipped by the same
test in the source). -/
structure CpeItem where
  cpeName : Option PyStr
deriving DecidableEq

/-- The candidate filter of `guess_cpe_for_conan`: at least five fields,
part 2 equal to `"a"`, and vendor or product matching the lowercased
package name (equality on part 3 or 4, or substring of part 4). -/
def cpeCandidateMatches (nameL : PyStr) (parts : List PyStr) : Bool :=
  decide (5 ≤ parts.length) &&
  parts.getD 2 [] == ['a'] &&
  (pyLower (parts.getD 3 []) == nameL ||
   pyLower (parts.getD 4 []) == nameL ||
   decide (nameL <:+: pyLower (parts.getD 4 [])))

/-- The candidate loop: first item whose truthy `cpeName` splits into a
matching field list. -/
def selectCpeParts (nameL : PyStr) : List CpeItem → Option (List PyStr)
  | [] => none
  | item :: rest =>
    match item.cpeName with
    | none => selectCpeParts nameL rest
    | some cpe23 =>
      if cpe23 = [] then selectCpeParts nameL rest
      else if cpeCandidateMatches nameL (splitOnC ':' cpe23) then
        some (splitOnC ':' cpe23)
      else selectCpeParts nameL rest

/-- `guess_cpe_for_conan`.  `candidates` is the outcome of the
`find_cpe_candidates` request; an exception there returns `None`.  On a
match the field list is padded to 13 entries with `"*"`, field 5 is
overwritten with the version (or `"*"` when the version is empty) and
the first 13 fields are joined with `":"`. -/
def guessCpeForConan (candidates : Except Unit (List CpeItem))
    (name version : PyStr) : Option PyStr :=
  match candidates with
  | .error _ => none
  | .ok items =>
    match selectCpeParts (pyLower name) items with
    | none => none
    | some best =>
      some (joinC ':' (((best ++ List.replicate (13 - best.length) ['*']).set 5
        (if version = [] then ['*'] else version)).take 13))

/-! ## Query orchestrator (`_query_osv_for_system`,
`_query_osv_for_submodules`, `_query_nvd_for_conan`) -/

/-- One apt package entry of a Dockerfile stage
(`{"name": ..., "version": ...}`). -/
structure AptPkg where
  name : String
  version : String
deriving DecidableEq

/-- One apk package entry of a Dockerfile stage. -/
structure ApkPkg where
  name : String
  version : String
deriving DecidableEq

/-- One entry of `dependencies["system_by_stage"]`. -/
structure StageEntry where
  stage : String
  base : String
  ecosystem : Option String
  apt : List AptPkg
  apk : List ApkPkg
deriving DecidableEq

/-- A `dependencies["system"]` value (only `version` is read here). -/
structure SysInfo where
  version : String
deriving DecidableEq

/-- A `dependencies["submodules"]` value (only `commit` is read here). -/
structure SubInfo where
  commit : Option String
deriving DecidableEq

/-- A `dependencies["conan"]` value. -/
structure ConanInfo where
  version : String
deriving DecidableEq

/-- The dependency inventory consumed by the query functions; dict
iteration order becomes association-list order. -/
structure Deps where
  conan : List (String × ConanInfo)
  system : List (String × SysInfo)
  submodules : List (String × SubInfo)
  system_by_stage : List StageEntry
deriving DecidableEq

/-- `ver in ("system", "required", "unknown")`. -/
def isPlaceholder (v : String) : Bool :=
  v == "system" || v == "required" || v == "unknown"

/-- apt queries and positional metadata of one stage: only built for
Ubuntu/Debian stage ecosystems, skipping falsy names and falsy or
placeholder cleaned versions. -/
def stageAptQueries (eco stageName : String) (apt : List AptPkg) :
    List OsvQuery × List (String × String × String) :=
  apt.foldl (fun acc p =>
    let ver := cleanVersion p.version
    if p.name == "" || ver == "" || isPlaceholder ver then acc
    else if eco == "Ubuntu" || eco == "Debian" then
      (acc.1 ++ [OsvQuery.pkg p.name eco ver],
       acc.2 ++ [(stageName ++ "::" ++ p.name, eco, ver)])
    else acc) ([], [])

/-- apk queries of one stage: Alpine only, version taken verbatim,
skipping falsy names and falsy or `"unknown"` versions. -/
def stageApkQueries (eco stageName : String) (apk : List ApkPkg) :
    List OsvQuery × List (String × String × String) :=
  apk.foldl (fun acc p =>
    if eco != "Alpine" then acc
    else if p.name == "" || p.version == "" || p.version == "unknown" then acc
    else
      (acc.1 ++ [OsvQuery.pkg p.name "Alpine" p.version],
       acc.2 ++ [(stageName ++ "::" ++ p.name, "Alpine", p.version)])) ([], [])

/-- Findings of one stage.  A stage with an unrecognized (or absent)
ecosystem, or an empty query list, issues no call; a failing batch call
is caught and yields no findings for the stage. -/
def stageFindings (osv : List OsvQuery → Except Unit OsvResp) (st : StageEntry) :
    List Finding × List NetCall :=
  match st.ecosystem with
  | none => ([], [])
  | some eco =>
    if eco == "Ubuntu" || eco == "Debian" || eco == "Alpine" then
      let aptPart := stageAptQueries eco st.stage st.apt
      let apkPart := stageApkQueries eco st.stage st.apk
      let queries := aptPart.1 ++ apkPart.1
      let meta := aptPart.2 ++ apkPart.2
      if queries.isEmpty then ([], [])
      else
        match osv queries with
        | .ok resp => (osvResultsToFindings resp meta, [NetCall.osvBatch queries])
        | .error _ => ([], [NetCall.osvBatch queries])
    else ([], [])

/-- The fallback (no stage data) query builder over
`dependencies["system"]`, driven by the inferred ecosystem. -/
def fallbackQueries (ecosystem : Option String) (system : List (String × SysInfo)) :
    List OsvQuery × List (String × String × String) :=
  system.foldl (fun acc pkgInfo =>
    let ver := cleanVersion pkgInfo.2.version
    if ver == "" || isPlaceholder ver then acc
    else if ecosystem == some "Ubuntu" then
      (acc.1 ++ [OsvQuery.pkg pkgInfo.1 "Ubuntu" ver], acc.2 ++ [(pkgInfo.1, "Ubuntu", ver)])
    else if ecosystem == some "Debian" then
      (acc.1 ++ [OsvQuery.pkg pkgInfo.1 "Debian" ver], acc.2 ++ [(pkgInfo.1, "Debian", ver)])
    else acc) ([], [])

/-- `_query_osv_for_system`.  Offline mode returns before any network
access.  With stage data, per-stage failures are caught; in the fallback
path an exception of the single batch call propagates (to be caught by
`_check_vulnerabilities`). -/
def queryOsvForSystem (offline : Bool) (ecosystem : Option String) (deps : Deps)
    (osv : List OsvQuery → Except Unit OsvResp) :
    Except Unit (List Finding) × List NetCall :=
  if offline then (.ok [], [])
  else if !deps.system_by_stage.isEmpty then
    let accumulated := deps.system_by_stage.foldl
      (fun acc st =>
        let one := stageFindings osv st
        (acc.1 ++ one.1, acc.2 ++ one.2)) ([], [])
    (.ok accumulated.1, accumulated.2)
  else if !(pyTruthy ecosystem) then (.ok [], [])
  else
    let built := fallbackQueries ecosystem deps.system
    if built.1.isEmpty then (.ok [], [])
    else
      match osv built.1 with
      | .ok resp => (.ok (osvResultsToFindings resp built.2), [NetCall.osvBatch built.1])
      | .error e => (.error e, [NetCall.osvBatch built.1])

/-- `(info.get("commit") or "").strip("-+ ")`. -/
def stripCommitMarkers (s : String) : String :=
  let p : Char → Bool := fun c => c == '-' || c == '+' || c == ' '
  String.mk (((s.data.dropWhile p).reverse.dropWhile p).reverse)

/-- `_query_osv_for_submodules`.  No per-call catch here: a batch failure
propagates to the caller. -/
def queryOsvForSubmodules (offline : Bool) (deps : Deps)
    (osv : List OsvQuery → Except Unit OsvResp) :
    Except Unit (List Finding) × List NetCall :=
  if offline then (.ok [], [])
  else
    let queries := deps.submodules.foldl (fun acc nameInfo =>
      let commit := stripCommitMarkers (nameInfo.2.commit.getD "")
      if commit == "" then acc else acc ++ [OsvQuery.commit commit]) []
    if queries.isEmpty then (.ok [], [])
    else
      match osv queries with
      | .ok resp => (.ok (osvResultsToFindings resp []), [NetCall.osvBatch queries])
      | .error e => (.error e, [NetCall.osvBatch queries])

/-- The per-dependency loop of `_query_nvd_for_conan`.  The CPE keyword
search is issued inside `guess_cpe_for_conan` (its failure is swallowed
there); a failure of `cves_by_cpe` propagates, discarding findings of
earlier iterations exactly as the Python exception does. -/
def queryNvdForConanGo (nvdCpe : String → Except Unit (List CpeItem))
    (nvdByCpe : PyStr → Except Unit NvdResp) :
    List (String × ConanInfo) → Except Unit (List Finding) × List NetCall
  | [] => (.ok [], [])
  | (name, info) :: rest =>
    let ver := cleanVersion info.version
    if ver == "" || pyLowerStr ver == "unknown" then
      queryNvdForConanGo nvdCpe nvdByCpe rest
    else
      let searchCall := NetCall.nvdCpeSearch name
      match guessCpeForConan (nvdCpe name) name.data ver.data with
      | none =>
        let tail := queryNvdForConanGo nvdCpe nvdByCpe rest
        (tail.1, searchCall :: tail.2)
      | some cpe =>
        match nvdByCpe cpe with
        | .error e => (.error e, [searchCall, NetCall.nvdCvesByCpe cpe])
        | .ok data =>
          let found := nvdResultsToFindings data name ver
          match queryNvdForConanGo nvdCpe nvdByCpe rest with
          | (.ok foundRest, l) =>
            (.ok (found ++ foundRest), searchCall :: NetCall.nvdCvesByCpe cpe :: l)
          | (.error e, l) =>
            (.error e, searchCall :: NetCall.nvdCvesByCpe cpe :: l)

/-- `_query_nvd_for_conan`. -/
def queryNvdForConan (offline : Bool) (deps : Deps)
    (nvdCpe : String → Except Unit (List CpeItem))
    (nvdByCpe : PyStr → Except Unit NvdResp) :
    Except Unit (List Finding) × List NetCall :=
  if offline then (.ok [], [])
  else queryNvdForConanGo nvdCpe nvdByCpe deps.conan

/-! ## Pipeline (`_check_vulnerabilities`) and report
(`_generate_report`) -/

/-- The external services, as response oracles. -/
structure Oracles where
  osv : List OsvQuery → Except Unit OsvResp
  nvdCpe : String → Except Unit (List CpeItem)
  nvdByCpe : PyStr → Except Unit NvdResp
  nvdById : String → Except Unit NvdResp

/-- The `try/except` of `_check_vulnerabilities` around each query
function: a propagated exception contributes no findings. -/
def exceptToList : Except Unit (List Finding) → List Finding
  | .ok l => l
  | .error _ => []

/-- `_check_vulnerabilities`: query both sources, enrich, dedupe. -/
def checkVulnerabilities (offline : Bool) (ecosystem : Option String)
    (deps : Deps) (o : Oracles) : List Finding × List NetCall :=
  let r1 := queryOsvForSystem offline ecosystem deps o.osv
  let r2 := queryOsvForSubmodules offline deps o.osv
  let r3 := queryNvdForConan offline deps o.nvdCpe o.nvdByCpe
  let findings := exceptToList r1.1 ++ exceptToList r2.1 ++ exceptToList r3.1
  let enriched := enrichOsvWithNvd o.nvdById findings
  (dedupeFindings enriched.1, r1.2 ++ r2.2 ++ r3.2 ++ enriched.2)

/-- The per-severity counters of `_generate_report`. -/
structure SevCounts where
  crit : Nat
  high : Nat
  med : Nat
  low : Nat
deriving DecidableEq

/-- One loop iteration of the report counting (`if/elif` chain on the
classified label). -/
def sevCountStep (acc : SevCounts) (v : Finding) : SevCounts :=
  let s := severityOf v
  if s == "CRITICAL" then { acc with crit := acc.crit + 1 }
  else if s == "HIGH" then { acc with high := acc.high + 1 }
  else if s == "MEDIUM" then { acc with med := acc.med + 1 }
  else if s == "LOW" then { acc with low := acc.low + 1 }
  else acc

/-- The summary block of the generated report. -/
structure ReportSummary where
  vulnerabilities_found : Nat
  critical_count : Nat
  high_count : Nat
  medium_count : Nat
  low_count : Nat
deriving DecidableEq

/-- The summary part of `_generate_report` over the deduplicated
findings. -/
def generateSummary (vulns : List Finding) : ReportSummary :=
  let c := vulns.foldl sevCountStep ⟨0, 0, 0, 0⟩
  { vulnerabilities_found := vulns.length, critical_count := c.crit,
    high_count := c.high, medium_count := c.med, low_count := c.low }

/-- The whole run as far as the report object: vulnerabilities list,
summary and the network calls issued on the way. -/
def runReport (offline : Bool) (ecosystem : Option String) (deps : Deps)
    (o : Oracles) : ReportSummary × List Finding × List NetCall :=
  let checked := checkVulnerabilities offline ecosystem deps o
  (generateSummary checked.1, checked.1, checked.2)

/-! ## Lemmas about deduplication -/

theorem dedupeGo_sublist (l : List Finding) :
    ∀ seen, (dedupeGo seen l).Sublist l := by
  induction l with
  | nil => intro seen; simp [dedupeGo]
  | cons it rest ih =>
    intro seen
    by_cases h : dedupKey it ∈ seen
    · simpa [dedupeGo, h] using (ih seen).cons it
    · simpa [dedupeGo, h] using (ih (dedupKey it :: seen)).cons₂ it

theorem dedupeGo_not_seen (l : List Finding) :
    ∀ seen f, f ∈ dedupeGo seen l → dedupKey f ∉ seen := by
  induction l with
  | nil => intro seen f hf; simp [dedupeGo] at hf
  | cons it rest ih =>
    intro seen f hf
    by_cases h : dedupKey it ∈ seen
    · exact ih seen f (by simpa [dedupeGo, h] using hf)
    · simp only [dedupeGo, h, if_false, List.mem_cons] at hf
      rcases hf with rfl | hf
      · exact h
      · intro hmem
        exact ih _ f hf (List.mem_cons_of_mem _ hmem)

theorem dedupeGo_keys_nodup (l : List Finding) :
    ∀ seen, ((dedupeGo seen l).map dedupKey).Nodup := by
  induction l with
  | nil => intro seen; simp [dedupeGo]
  | cons it rest ih =>
    intro seen
    by_cases h : dedupKey it ∈ seen
    · simpa [dedupeGo, h] using ih seen
    · simp only [dedupeGo, h, if_false, List.map_cons, List.nodup_cons]
      refine ⟨?_, ih _⟩
      intro hmem
      rcases List.mem_map.mp hmem with ⟨g, hg, hkey⟩
      exact dedupeGo_not_seen rest _ g hg (by simp [hkey])

theorem dedupeGo_find? (l : List Finding) :
    ∀ seen k, k ∉ seen →
      (dedupeGo seen l).find? (fun it => decide (dedupKey it = k)) =
        l.find? (fun it => decide (dedupKey it = k)) := by
  induction l with
  | nil => intro seen k _; simp [dedupeGo]
  | cons it rest ih =>
    intro seen k hk
    by_cases h : dedupKey it ∈ seen
    · have hne : dedupKey it ≠ k := fun he => hk (he ▸ h)
      simp only [dedupeGo, h, if_true, List.find?_cons]
      rw [ih seen k hk]
      simp [hne]
    · simp only [dedupeGo, h, if_false]
      by_cases he : dedupKey it = k
      · simp [List.find?_cons, he]
      · have hne : (decide (dedupKey it = k)) = false := by simp [he]
        simp only [List.find?_cons, hne]
        refine ih (dedupKey it :: seen) k ?_
        simp only [List.mem_cons, not_or]
        exact ⟨fun x => he x.symm, hk⟩

theorem dedupeGo_of_nodup (l : List Finding) :
    ∀ seen, (l.map dedupKey).Nodup → (∀ f ∈ l, dedupKey f ∉ seen) →
      dedupeGo seen l = l := by
  induction l with
  | nil => intro seen _ _; simp [dedupeGo]
  | cons it rest ih =>
    intro seen hnd hfresh
    have h : dedupKey it ∉ seen := hfresh it (List.mem_cons_self it rest)
    simp only [dedupeGo, h, if_false]
    simp only [List.map_cons, List.nodup_cons] at hnd
    refine congrArg (it :: ·) (ih _ hnd.2 ?_)
    intro f hf
    simp only [List.mem_cons]
    rintro (hkey | hmem)
    · exact hnd.1 (hkey ▸ List.mem_map_of_mem dedupKey hf)
    · exact hfresh f (List.mem_cons_of_mem _ hf) hmem

/-- Claim C2: deduplication keeps exactly the first occurrence of each
identity key (the finding's `id` when non-empty, else the composite of
source, package, version and summary): the output is a verbatim,
order-preserving selection from the input, no two output findings share
a key, and for every key the retained element is precisely the first
input element with that key. -/
theorem claim2_dedupe_first_occurrence (items : List Finding) :
    (dedupeFindings items).Sublist items ∧
    ((dedupeFindings items).map dedupKey).Nodup ∧
    ∀ k, (dedupeFindings items).find? (fun it => decide (dedupKey it = k)) =
        items.find? (fun it => decide (dedupKey it = k)) := by
  refine ⟨dedupeGo_sublist items [], dedupeGo_keys_nodup items [], ?_⟩
  intro k
  exact dedupeGo_find? items [] k (by simp)

/-- Claim C3: deduplication is idempotent. -/
theorem claim3_dedupe_idempotent (items : List Finding) :
    dedupeFindings (dedupeFindings items) = dedupeFindings items := by
  unfold dedupeFindings
  exact dedupeGo_of_nodup _ [] (dedupeGo_keys_nodup items []) (by simp)

/-! ## Lemmas about the report counters -/

theorem sevCountStep_spec (c : SevCounts) (v : Finding) :
    sevCountStep c v =
      ⟨c.crit + (if severityOf v == "CRITICAL" then 1 else 0),
       c.high + (if severityOf v == "HIGH" then 1 else 0),
       c.med + (if severityOf v == "MEDIUM" then 1 else 0),
       c.low + (if severityOf v == "LOW" then 1 else 0)⟩ := by
  unfold sevCountStep
  rcases c with ⟨a, b, m, lo⟩
  by_cases h1 : severityOf v = "CRITICAL"
  · simp [h1]
  · by_cases h2 : severityOf v = "HIGH"
    · simp [h2]
    · by_cases h3 : severityOf v = "MEDIUM"
      · simp [h3]
      · by_cases h4 : severityOf v = "LOW"
        · simp [h4]
        · simp [h1, h2, h3, h4]

theorem foldl_sevCountStep (l : List Finding) :
    ∀ c : SevCounts,
      l.foldl sevCountStep c =
        ⟨c.crit + l.countP (fun v => severityOf v == "CRITICAL"),
         c.high + l.countP (fun v => severityOf v == "HIGH"),
         c.med + l.countP (fun v => severityOf v == "MEDIUM"),
         c.low + l.countP (fun v => severityOf v == "LOW")⟩ := by
  induction l with
  | nil => intro c; simp
  | cons v rest ih =>
    intro c
    simp only [List.foldl_cons, ih, sevCountStep_spec, List.countP_cons]
    simp only [SevCounts.mk.injEq]
    refine ⟨?_, ?_, ?_, ?_⟩ <;> omega

theorem countP_four_sum (l : List Finding) :
    l.countP (fun v => severityOf v == "CRITICAL") +
      l.countP (fun v => severityOf v == "HIGH") +
      l.countP (fun v => severityOf v == "MEDIUM") +
      l.countP (fun v => severityOf v == "LOW") =
    l.countP (fun v =>
      severityOf v == "CRITICAL" || severityOf v == "HIGH" ||
      severityOf v == "MEDIUM" || severityOf v == "LOW") := by
  induction l with
  | nil => simp
  | cons v rest ih =>
    simp only [List.countP_cons]
    by_cases h1 : severityOf v = "CRITICAL"
    · simp [h1]; omega
    · by_cases h2 : severityOf v = "HIGH"
      · simp [h2]; omega
      · by_cases h3 : severityOf v = "MEDIUM"
        · simp [h3]; omega
        · by_cases h4 : severityOf v = "LOW"
          · simp [h4]; omega
          · simp [h1, h2, h3, h4]; omega

/-- Claim C10: the four per-severity counts of the report count exactly
the findings classified `CRITICAL`, `HIGH`, `MEDIUM` and `LOW`
respectively, `vulnerabilities_found` is the total, findings classified
to any other label land in no bucket, so the bucket sum is at most the
total with equality exactly when every finding classifies into one of
the four labels. -/
theorem claim10_report_counts (vulns : List Finding) :
    (generateSummary vulns).vulnerabilities_found = vulns.length ∧
    (generateSummary vulns).critical_count =
      vulns.countP (fun v => severityOf v == "CRITICAL") ∧
    (generateSummary vulns).high_count =
      vulns.countP (fun v => severityOf v == "HIGH") ∧
    (generateSummary vulns).medium_count =
      vulns.countP (fun v => severityOf v == "MEDIUM") ∧
    (generateSummary vulns).low_count =
      vulns.countP (fun v => severityOf v == "LOW") ∧
    (generateSummary vulns).critical_count + (generateSummary vulns).high_count +
        (generateSummary vulns).medium_count + (generateSummary vulns).low_count ≤
      (generateSummary vulns).vulnerabilities_found ∧
    ((generateSummary vulns).critical_count + (generateSummary vulns).high_count +
          (generateSummary vulns).medium_count + (generateSummary vulns).low_count =
        (generateSummary vulns).vulnerabilities_found ↔
      ∀ v ∈ vulns, severityOf v = "CRITICAL" ∨ severityOf v = "HIGH" ∨
        severityOf v = "MEDIUM" ∨ severityOf v = "LOW") := by
  have hfold := foldl_sevCountStep vulns ⟨0, 0, 0, 0⟩
  have hc : (generateSummary vulns).critical_count =
      vulns.countP (fun v => severityOf v == "CRITICAL") := by
    simp [generateSummary, hfold]
  have hh : (generateSummary vulns).high_count =
      vulns.countP (fun v => severityOf v == "HIGH") := by
    simp [generateSummary, hfold]
  have hm : (generateSummary vulns).medium_count =
      vulns.countP (fun v => severityOf v == "MEDIUM") := by
    simp [generateSummary, hfold]
  have hl : (generateSummary vulns).low_count =
      vulns.countP (fun v => severityOf v == "LOW") := by
    simp [generateSummary, hfold]
  have hn : (generateSummary vulns).vulnerabilities_found = vulns.length := rfl
  have hsum := countP_four_sum vulns
  refine ⟨hn, hc, hh, hm, hl, ?_, ?_⟩
  · rw [hc, hh, hm, hl, hn, hsum]
    exact List.countP_le_length _
  · rw [hc, hh, hm, hl, hn, hsum, List.countP_eq_length]
    constructor
    · intro h v hv
      have := h v hv
      simp only [Bool.or_eq_true, beq_iff_eq] at this
      tauto
    · intro h v hv
      simp only [Bool.or_eq_true, beq_iff_eq]
      have := h v hv
      tauto

/-- Claim C7: with offline mode enabled, every query function returns an
empty result without issuing a network call, and the downstream stages
(enrichment, deduplication, counting, report synthesis) still run,
producing a report with zero findings, zero severity counts, and an
empty network-call log, for every inventory and any behavior of the
external services. -/
theorem claim7_offline_no_network (ecosystem : Option String) (deps : Deps)
    (o : Oracles) :
    queryOsvForSystem true ecosystem deps o.osv = (.ok [], []) ∧
    queryOsvForSubmodules true deps o.osv = (.ok [], []) ∧
    queryNvdForConan true deps o.nvdCpe o.nvdByCpe = (.ok [], []) ∧
    runReport true ecosystem deps o = (⟨0, 0, 0, 0, 0⟩, [], []) :=
  ⟨rfl, rfl, rfl, rfl⟩

/-- Claim C5: the per-finding classifier returns the explicit severity
label when one is present (the finding's own label, else the CVSS base
severity), otherwise classifies a numeric base score by the 9.0 / 7.0 /
4.0 thresholds, and returns `UNKNOWN` when neither is present. -/
theorem claim5_severity_classifier (v : Finding) :
    (pyTruthy v.severity = true →
      severityOf v = pyUpper (v.severity.getD "")) ∧
    (pyTruthy v.severity = false →
      pyTruthy (v.cvss.bind Cvss.baseSeverity) = true →
      severityOf v = pyUpper ((v.cvss.bind Cvss.baseSeverity).getD "")) ∧
    (pyTruthy v.severity = false →
      pyTruthy (v.cvss.bind Cvss.baseSeverity) = false →
      ∀ q : ℚ, v.cvss.bind Cvss.baseScore = some q →
        (9 ≤ q → severityOf v = "CRITICAL") ∧
        (7 ≤ q → q < 9 → severityOf v = "HIGH") ∧
        (4 ≤ q → q < 7 → severityOf v = "MEDIUM") ∧
        (q < 4 → severityOf v = "LOW")) ∧
    (pyTruthy v.severity = false →
      pyTruthy (v.cvss.bind Cvss.baseSeverity) = false →
      v.cvss.bind Cvss.baseScore = none → severityOf v = "UNKNOWN") := by
  unfold severityOf
  refine ⟨?_, ?_, ?_, ?_⟩
  · intro h; simp [h]
  · intro h1 h2; simp [h1, h2]
  · intro h1 h2 q hq
    simp only [h1, h2, Bool.false_eq_true, if_false, hq]
    refine ⟨?_, ?_, ?_, ?_⟩
    · intro h9; simp [h9]
    · intro h7 h9
      rw [if_neg (by intro hx; linarith), if_pos h7]
    · intro h4 h7
      rw [if_neg (by intro hx; linarith), if_neg (by intro hx; linarith), if_pos h4]
    · intro h4
      rw [if_neg (by intro hx; linarith), if_neg (by intro hx; linarith),
        if_neg (by intro hx; linarith)]
  · intro h1 h2 h3; simp [h1, h2, h3]

/-- A finding with no severity label and base score 8, exercising the
HIGH threshold band of the classifier. -/
def c5Witness : Finding :=
  { source := "NVD", id := some "CVE-2024-0001", package := some "openssl",
    ecosystem := none, version := some "1.1.1f", summary := none,
    severity := none, cvss := some ⟨none, some 8⟩, references := [],
    aliases := [], affected := [] }

theorem claim5_severity_classifier_witness :
    pyTruthy c5Witness.severity = false ∧
    pyTruthy (c5Witness.cvss.bind Cvss.baseSeverity) = false ∧
    c5Witness.cvss.bind Cvss.baseScore = some 8 ∧
    severityOf c5Witness = "HIGH" :=
  ⟨by decide, by decide, by decide,
   ((claim5_severity_classifier c5Witness).2.2.1 (by decide) (by decide) 8
      (by decide)).2.1 (by decide) (by decide)⟩

/-! ## Enrichment never modifies out-of-scope findings (C9) -/

/-- The conditions under which the claim requires a finding to pass
through enrichment untouched: it already has a severity, or is not an
OSV finding, or no canonical CVE id can be recovered, or the registry
lookup fails, or the response has no vulnerability entry or no usable
metric block. -/
def enrichUnmodCond (nvdById : String → Except Unit NvdResp) (f : Finding) : Prop :=
  pyTruthy f.severity = true ∨ f.source ≠ "OSV" ∨ recoverCveId f = none ∨
  (∀ cid, recoverCveId f = some cid →
    (nvdById cid = .error () ∨
     ∃ data, nvdById cid = .ok data ∧
       (data.vulnerabilities = [] ∨
        ∃ item rest, data.vulnerabilities = item :: rest ∧
          pickCvssMetric item.cve.metrics = none)))

/-- Claim C9: enrichment is total (it returns a same-length list, never
an exception) and modifies only OSV-sourced findings that lack a
severity; any finding that has a severity, has another source, yields no
recoverable CVE id, or whose lookup fails or carries no usable metric
data is returned unmodified, and a modified finding differs at most in
its `cvss` field. -/
theorem enrichOne_cases (nvdById : String → Except Unit NvdResp) (f : Finding) :
    (enrichUnmodCond nvdById f → (enrichOne nvdById f).1 = f) ∧
    ((enrichOne nvdById f).1 = f ∨
      (f.source = "OSV" ∧ pyTruthy f.severity = false ∧
        ∃ c, (enrichOne nvdById f).1 = { f with cvss := c })) := by
  by_cases hskip : (decide (f.source ≠ "OSV") || pyTruthy f.severity) = true
  · have hres : (enrichOne nvdById f).1 = f := by
      unfold enrichOne
      rw [if_pos hskip]
    exact ⟨fun _ => hres, Or.inl hres⟩
  · have hsplit : ¬f.source ≠ "OSV" ∧ ¬pyTruthy f.severity = true := by
      simpa [Bool.or_eq_true, not_or] using hskip
    have hsrc : f.source = "OSV" := not_not.mp hsplit.1
    have hsev : pyTruthy f.severity = false := by
      cases hb : pyTruthy f.severity
      · rfl
      · exact absurd hb hsplit.2
    have hunfold : enrichOne nvdById f =
        (match recoverCveId f with
          | none => (f, [])
          | some cid =>
            match nvdById cid with
            | .error _ => (f, [NetCall.nvdCveById cid])
            | .ok data =>
              match data.vulnerabilities with
              | [] => (f, [NetCall.nvdCveById cid])
              | item :: _ =>
                match pickCvssMetric item.cve.metrics with
                | none => (f, [NetCall.nvdCveById cid])
                | some c => ({ f with cvss := c }, [NetCall.nvdCveById cid])) := by
      unfold enrichOne
      rw [if_neg hskip]
    cases hrec : recoverCveId f with
    | none =>
      have hres : (enrichOne nvdById f).1 = f := by
        rw [hunfold]; simp only [hrec]
      exact ⟨fun _ => hres, Or.inl hres⟩
    | some cid =>
      cases hor : nvdById cid with
      | error e =>
        have hres : (enrichOne nvdById f).1 = f := by
          rw [hunfold]; simp only [hrec, hor]
        exact ⟨fun _ => hres, Or.inl hres⟩
      | ok data =>
        cases hvul : data.vulnerabilities with
        | nil =>
          have hres : (enrichOne nvdById f).1 = f := by
            rw [hunfold]; simp only [hrec, hor, hvul]
          exact ⟨fun _ => hres, Or.inl hres⟩
        | cons item restV =>
          cases hpick : pickCvssMetric item.cve.metrics with
          | none =>
            have hres : (enrichOne nvdById f).1 = f := by
              rw [hunfold]; simp only [hrec, hor, hvul, hpick]
            exact ⟨fun _ => hres, Or.inl hres⟩
          | some c =>
            have hres : (enrichOne nvdById f).1 = { f with cvss := c } := by
              rw [hunfold]; simp only [hrec, hor, hvul, hpick]
            refine ⟨?_, Or.inr ⟨hsrc, hsev, c, hres⟩⟩
            intro hcond
            rcases hcond with h | h | h | h
            · rw [hsev] at h; cases h
            · exact absurd hsrc h
            · rw [hrec] at h; cases h
            · rcases h cid hrec with h | ⟨d, hd, h⟩
              · rw [hor] at h; cases h
              · rw [hor] at hd
                cases hd
                rcases h with h | ⟨i, r, hir, hp⟩
                · rw [hvul] at h; cases h
                · rw [hvul] at hir
                  cases hir
                  rw [hpick] at hp; cases hp

/-- Claim C9: enrichment is total (it returns a same-length list, never
an exception) and modifies only OSV-sourced findings that lack a
severity; any finding that has a severity, has another source, yields no
recoverable CVE id, or whose lookup fails or carries no usable metric
data is returned unmodified, and a modified finding differs at most in
its `cvss` field. -/
theorem claim9_enrich_preserves (nvdById : String → Except Unit NvdResp)
    (items : List Finding) :
    List.Forall₂ (fun f g =>
        (enrichUnmodCond nvdById f → g = f) ∧
        (g = f ∨ (f.source = "OSV" ∧ pyTruthy f.severity = false ∧
          ∃ c, g = { f with cvss := c })))
      items (enrichOsvWithNvd nvdById items).1 := by
  induction items with
  | nil => exact List.Forall₂.nil
  | cons f rest ih => exact List.Forall₂.cons (enrichOne_cases nvdById f) ih

/-! ## OSV severity extraction is last-match, not first-match (C1) -/

theorem getLast?_cons_or {α : Type} (s : α) (l : List α) :
    (s :: l).getLast? = l.getLast?.or (some s) := by
  cases l with
  | nil => rfl
  | cons x xs =>
    rw [List.getLast?_cons_cons]
    cases h : (x :: xs).getLast? with
    | none =>
      have : (x :: xs).getLast?.isSome := by
        rw [List.getLast?_isSome]
        simp
      rw [h] at this
      cases this
    | some y => rfl

theorem foldl_or_filterMap {α β : Type} (t : α → Option β) (l : List α) :
    ∀ acc, l.foldl (fun a e => (t e).or a) acc = (l.filterMap t).getLast?.or acc := by
  induction l with
  | nil => intro acc; simp
  | cons e l ih =>
    intro acc
    rw [List.foldl_cons, ih]
    cases ht : t e with
    | none => simp [List.filterMap_cons, ht]
    | some s =>
      simp only [List.filterMap_cons, ht, getLast?_cons_or, Option.or_assoc,
        Option.or_some]

/-- The severity the normalizer stores is the value of the last entry
that provides one. -/
theorem osvSevScan_eq_getLast (entries : List OsvSeverityEntry) :
    osvSevScan entries =
      (entries.filterMap (fun e => truthyOpt e.severity)).getLast? := by
  unfold osvSevScan
  rw [foldl_or_filterMap]
  simp

/-- Formalization of the claim's words: the severity provided by the
first entry of the severity list that provides one. -/
def firstProvidedSeverity (entries : List OsvSeverityEntry) : Option String :=
  (entries.filterMap (fun e => truthyOpt e.severity)).head?

/-- A vulnerability whose severity list provides `HIGH` first and `LOW`
second. -/
def c1Vuln : OsvVuln :=
  { id := some "OSV-2024-1", summary := some "zlib bug",
    severity := [⟨some "HIGH"⟩, ⟨some "LOW"⟩],
    references := [], aliases := [], affected := [] }

def c1Resp : OsvResp := ⟨[⟨none, none, [c1Vuln]⟩]⟩

def c1Meta : List (String × String × String) := [("zlib", "Debian", "1.2.13")]

/-- Counterexample to claim C1 as stated: with severity entries
`[HIGH, LOW]` the emitted finding carries `LOW` (the last provider),
while the first entry providing a value carries `HIGH`. -/
theorem claim1_counterexample :
    (osvResultsToFindings c1Resp c1Meta).map Finding.severity = [some "LOW"] ∧
    firstProvidedSeverity c1Vuln.severity = some "HIGH" ∧
    some "LOW" ≠ some "HIGH" := by
  exact ⟨by decide, by decide, by decide⟩

/-- Claim C1 (amended): every finding the OSV normalizer emits takes its
severity from the *last* entry in the vulnerability's severity list that
provides one (later providers override earlier ones); entries providing
none are ignored. -/
theorem claim1_severity_last_match (resp : OsvResp)
    (meta : List (String × String × String)) (f : Finding)
    (hf : f ∈ osvResultsToFindings resp meta) :
    ∃ res ∈ resp.results, ∃ v ∈ res.vulns,
      f.severity = (v.severity.filterMap (fun e => truthyOpt e.severity)).getLast? := by
  unfold osvResultsToFindings at hf
  rcases List.mem_flatMap.mp hf with ⟨p, hp, hfp⟩
  have hres : p.2 ∈ resp.results := by
    rcases p with ⟨i, res⟩
    rcases List.mem_enum hp with ⟨hi, hx⟩
    rw [hx]
    exact List.getElem_mem hi
  rcases List.mem_map.mp hfp with ⟨v, hv, hfv⟩
  refine ⟨p.2, hres, v, hv, ?_⟩
  rw [← hfv]
  show osvSevScan v.severity = _
  exact osvSevScan_eq_getLast v.severity

theorem claim1_severity_last_match_witness :
    (osvVulnToFinding (some "zlib") (some "Debian") (some "1.2.13") c1Vuln ∈
      osvResultsToFindings c1Resp c1Meta) ∧
    ∃ res ∈ c1Resp.results, ∃ v ∈ res.vulns,
      (osvVulnToFinding (some "zlib") (some "Debian") (some "1.2.13") c1Vuln).severity =
        (v.severity.filterMap (fun e => truthyOpt e.severity)).getLast? :=
  ⟨by decide, claim1_severity_last_match c1Resp c1Meta _ (by decide)⟩

/-! ## Aggregate severity ignores numeric scores (C4) -/

theorem highestSeverity_go (l : List Finding) :
    ∀ best : String,
      ∃ b, l.foldl highestSeverityStep (best, sevOrder best) = (b, sevOrder b) ∧
        sevOrder b =
          (l.map (fun v => sevOrder (rawSevLabel v))).foldl max (sevOrder best) ∧
        (b = best ∨ b ∈ l.map rawSevLabel) := by
  induction l with
  | nil => intro best; exact ⟨best, rfl, rfl, Or.inl rfl⟩
  | cons v l ih =>
    intro best
    rw [List.foldl_cons, List.map_cons, List.foldl_cons]
    by_cases h : sevOrder best < sevOrder (rawSevLabel v)
    · have hstep : highestSeverityStep (best, sevOrder best) v =
          (rawSevLabel v, sevOrder (rawSevLabel v)) := by
        unfold highestSeverityStep
        simp [h]
      have hmax : max (sevOrder best) (sevOrder (rawSevLabel v)) =
          sevOrder (rawSevLabel v) := max_eq_right (le_of_lt h)
      rw [hstep, hmax]
      obtain ⟨b, hfold, hord, hmem⟩ := ih (rawSevLabel v)
      refine ⟨b, hfold, hord, ?_⟩
      rcases hmem with rfl | hb
      · exact Or.inr (List.mem_cons_self _ _)
      · exact Or.inr (List.mem_cons_of_mem _ hb)
    · have hstep : highestSeverityStep (best, sevOrder best) v =
          (best, sevOrder best) := by
        unfold highestSeverityStep
        simp [h]
      have hmax : max (sevOrder best) (sevOrder (rawSevLabel v)) = sevOrder best :=
        max_eq_left (not_lt.mp h)
      rw [hstep, hmax]
      obtain ⟨b, hfold, hord, hmem⟩ := ih best
      refine ⟨b, hfold, hord, ?_⟩
      rcases hmem with rfl | hb
      · exact Or.inl rfl
      · exact Or.inr (List.mem_cons_of_mem _ hb)

/-- A finding with no severity label anywhere but a CVSS base score of
10; the classifier ranks it CRITICAL, the aggregator ignores it. -/
def c4Finding : Finding :=
  { source := "NVD", id := some "CVE-2024-0002", package := some "curl",
    ecosystem := none, version := some "8.0.0", summary := none, severity := none,
    cvss := some ⟨none, some 10⟩, references := [], aliases := [], affected := [] }

/-- Formalization of the claim's words: the maximum-ranked label among
the per-finding classifier (`_severity_of`) outcomes. -/
def classifierAggregateClaim (vulns : List Finding) : String :=
  vulns.foldl (fun best v =>
    if sevOrder best < sevOrder (severityOf v) then severityOf v else best) "UNKNOWN"

/-- Counterexample to claim C4 as stated: on a finding whose only
severity information is a numeric base score, the aggregate is UNKNOWN
while the maximum-ranked per-finding classifier label is CRITICAL. -/
theorem claim4_counterexample :
    highestSeverity [c4Finding] = "UNKNOWN" ∧
    classifierAggregateClaim [c4Finding] = "CRITICAL" ∧
    ("UNKNOWN" : String) ≠ "CRITICAL" :=
  ⟨by decide, by decide, by decide⟩

/-- Claim C4 (amended): the aggregate severity's rank equals the maximum
rank of the per-finding labels computed as explicit severity, else CVSS
base severity, else UNKNOWN (uppercased, with no numeric-score
derivation) under the ranking UNKNOWN(-1) < LOW(0) < MEDIUM(1) <
HIGH(2) < CRITICAL(3); the aggregate label is UNKNOWN or one of those
per-finding labels, and the aggregate of an empty set is UNKNOWN. -/
theorem claim4_aggregate_max_rank (vulns : List Finding) :
    sevOrder (highestSeverity vulns) =
      (vulns.map (fun v => sevOrder (rawSevLabel v))).foldl max (-1) ∧
    (highestSeverity vulns = "UNKNOWN" ∨
      highestSeverity vulns ∈ vulns.map rawSevLabel) ∧
    highestSeverity [] = "UNKNOWN" := by
  have h0 : sevOrder "UNKNOWN" = -1 := by decide
  obtain ⟨b, hfold, hord, hmem⟩ := highestSeverity_go vulns "UNKNOWN"
  rw [h0] at hfold hord
  unfold highestSeverity
  rw [hfold]
  exact ⟨hord, hmem, rfl⟩

/-! ## Order lemmas for the lexicographic comparator -/

theorem charListLt_irrefl (l : List Char) : charListLt l l = false := by
  induction l with
  | nil => rfl
  | cons a as ih => simp [charListLt, ih, lt_irrefl]

theorem charListLt_trans :
    ∀ a b c : List Char, charListLt a b = true → charListLt b c = true →
      charListLt a c = true := by
  intro a
  induction a with
  | nil =>
    intro b c h1 h2
    cases b with
    | nil => cases h1
    | cons y ys =>
      cases c with
      | nil => cases h2
      | cons z zs => rfl
  | cons x xs ih =>
    intro b c h1 h2
    cases b with
    | nil => cases h1
    | cons y ys =>
      cases c with
      | nil => cases h2
      | cons z zs =>
        simp only [charListLt, Bool.or_eq_true, Bool.and_eq_true,
          decide_eq_true_eq, beq_iff_eq] at h1 h2 ⊢
        rcases h1 with h1 | ⟨rfl, h1⟩
        · rcases h2 with h2 | ⟨rfl, h2⟩
          · exact Or.inl (lt_trans h1 h2)
          · exact Or.inl h1
        · rcases h2 with h2 | ⟨rfl, h2⟩
          · exact Or.inl h2
          · exact Or.inr ⟨rfl, ih ys zs h1 h2⟩

theorem charListLt_connex :
    ∀ a b : List Char, charListLt a b = false → charListLt b a = false → a = b := by
  intro a
  induction a with
  | nil =>
    intro b h1 _
    cases b with
    | nil => rfl
    | cons y ys => cases h1
  | cons x xs ih =>
    intro b h1 h2
    cases b with
    | nil => cases h2
    | cons y ys =>
      simp only [charListLt, Bool.or_eq_false_iff, Bool.and_eq_false_iff,
        decide_eq_false_iff_not, beq_eq_false_iff_ne, ne_eq] at h1 h2
      have hxy : x = y := le_antisymm (not_lt.mp h2.1) (not_lt.mp h1.1)
      subst hxy
      rcases h1.2 with h1e | h1lt
      · exact absurd rfl h1e
      · rcases h2.2 with h2e | h2lt
        · exact absurd rfl h2e
        · rw [ih ys h1lt h2lt]

theorem strLtB_trans {a b c : String} (h1 : strLtB a b = true)
    (h2 : strLtB b c = true) : strLtB a c = true :=
  charListLt_trans a.data b.data c.data h1 h2

theorem strLtB_antisymm {a b : String} (h1 : strLtB a b = false)
    (h2 : strLtB b a = false) : a = b := by
  have h := charListLt_connex a.data b.data h1 h2
  cases a
  cases b
  exact congrArg String.mk h

/-! ## `sorted(set(...))` lemmas -/

theorem mem_insertStr (s x : String) :
    ∀ l, x ∈ insertStr s l ↔ x = s ∨ x ∈ l := by
  intro l
  induction l with
  | nil => simp [insertStr]
  | cons t ts ih =>
    unfold insertStr
    by_cases h1 : strLtB s t = true
    · rw [if_pos h1]
      simp only [List.mem_cons]
    · rw [if_neg h1]
      by_cases h2 : s = t
      · rw [if_pos h2]
        subst h2
        simp only [List.mem_cons]
        tauto
      · rw [if_neg h2]
        simp only [List.mem_cons, ih]
        tauto

theorem pairwise_insertStr (s : String) :
    ∀ l, l.Pairwise (fun a b => strLtB a b = true) →
      (insertStr s l).Pairwise (fun a b => strLtB a b = true) := by
  intro l
  induction l with
  | nil => intro _; simp [insertStr]
  | cons t ts ih =>
    intro hp
    rw [List.pairwise_cons] at hp
    obtain ⟨ht, hts⟩ := hp
    unfold insertStr
    by_cases h1 : strLtB s t = true
    · rw [if_pos h1]
      refine List.Pairwise.cons ?_ (List.Pairwise.cons ht hts)
      intro y hy
      rcases List.mem_cons.mp hy with rfl | hy
      · exact h1
      · exact strLtB_trans h1 (ht y hy)
    · rw [if_neg h1]
      by_cases h2 : s = t
      · rw [if_pos h2]
        exact List.Pairwise.cons ht hts
      · rw [if_neg h2]
        refine List.Pairwise.cons ?_ (ih hts)
        intro y hy
        rcases (mem_insertStr s y ts).mp hy with rfl | hy
        · by_cases h3 : strLtB t y = true
          · exact h3
          · exact absurd (strLtB_antisymm (Bool.not_eq_true _ ▸ h1)
              (Bool.not_eq_true _ ▸ h3)) h2
        · exact ht y hy

theorem pairwise_pySortedSet (l : List String) :
    (pySortedSet l).Pairwise (fun a b => strLtB a b = true) := by
  suffices h : ∀ acc : List String, acc.Pairwise (fun a b => strLtB a b = true) →
      (l.foldl (fun acc s => insertStr s acc) acc).Pairwise
        (fun a b => strLtB a b = true) from h [] (by simp)
  induction l with
  | nil => intro acc hacc; exact hacc
  | cons s rest ih =>
    intro acc hacc
    exact ih (insertStr s acc) (pairwise_insertStr s acc hacc)

theorem mem_pySortedSet (l : List String) (x : String) :
    x ∈ pySortedSet l ↔ x ∈ l := by
  suffices h : ∀ acc : List String,
      (x ∈ l.foldl (fun acc s => insertStr s acc) acc ↔ x ∈ acc ∨ x ∈ l) by
    rw [pySortedSet, h []]
    simp
  induction l with
  | nil => intro acc; simp
  | cons s rest ih =>
    intro acc
    rw [List.foldl_cons, ih (insertStr s acc)]
    rw [mem_insertStr]
    simp only [List.mem_cons]
    tauto

/-! ## Fixed-version extraction adds limits unconditionally (C8) -/

/-- The truthy `limit` of the last event of a range whose `events` list
is present and non-empty. -/
def rangeLimitIfPresent (r : OsvRange) : List String :=
  match r.events with
  | some (e :: es) =>
    (((e :: es).getLast?).bind (fun ev => truthyOpt ev.limit)).toList
  | _ => []

theorem rangeContrib_ok (r : OsvRange) (h : r.events ≠ some []) :
    rangeContrib r = .ok (rangeFixes r ++ rangeLimitIfPresent r) := by
  rcases r with ⟨events⟩
  cases events with
  | none => rfl
  | some es =>
    cases es with
    | nil => exact absurd rfl h
    | cons e tail => rfl

theorem collectRanges_ok (rs : List OsvRange)
    (h : ∀ r ∈ rs, r.events ≠ some []) :
    collectRanges rs =
      .ok (rs.flatMap (fun r => rangeFixes r ++ rangeLimitIfPresent r)) := by
  induction rs with
  | nil => rfl
  | cons r rest ih =>
    have h1 := h r (List.mem_cons_self r rest)
    have h2 : ∀ x ∈ rest, x.events ≠ some [] :=
      fun x hx => h x (List.mem_cons_of_mem _ hx)
    unfold collectRanges
    rw [rangeContrib_ok r h1, ih h2]
    simp [List.flatMap_cons]

theorem mem_toList_iff {α : Type} (o : Option α) (s : α) :
    s ∈ o.toList ↔ o.toList = [s] := by
  cases o <;> simp [eq_comm]

theorem mem_rangeLimitIfPresent (r : OsvRange) (s : String) :
    s ∈ rangeLimitIfPresent r ↔ rangeLimitIfPresent r = [s] := by
  unfold rangeLimitIfPresent
  rcases r with ⟨events⟩
  cases events with
  | none => simp
  | some es =>
    cases es with
    | nil => simp
    | cons e tail => exact mem_toList_iff _ s

/-- A finding with one range carrying both an explicit `fixed` event and
a trailing `limit` event: the code collects both. -/
def c8Finding : Finding :=
  { source := "OSV", id := some "OSV-2024-2", package := some "zlib",
    ecosystem := some "Debian", version := some "1.2.8", summary := none,
    severity := none, cvss := none, references := [], aliases := [],
    affected := [⟨[⟨some [⟨some "1.2.9", none⟩, ⟨none, some "2.0"⟩]⟩]⟩] }

/-- Formalization of the claim's words: every `fixed` value, plus the
last event's `limit` only for ranges with no `fixed` value, sorted and
deduplicated. -/
def fixedVersionsClaim (f : Finding) : List String :=
  pySortedSet (f.affected.flatMap (fun aff => aff.ranges.flatMap (fun r =>
    rangeFixes r ++ (if rangeFixes r = [] then rangeLimitIfPresent r else []))))

/-- Counterexample to claim C8 as stated: in a range that has an
explicit `fixed` value, the upper-bound `limit` of the last event is
still collected, while the claim says it must not be. -/
theorem claim8_counterexample :
    osvFixedVersions c8Finding = .ok ["1.2.9", "2.0"] ∧
    fixedVersionsClaim c8Finding = ["1.2.9"] ∧
    (["1.2.9", "2.0"] : List String) ≠ ["1.2.9"] :=
  ⟨rfl, rfl, by decide⟩

/-- Claim C8 (amended): for every finding whose ranges never carry an
explicitly empty `events` list (that case raises `IndexError`), the
candidate set consists of every range event's truthy `fixed` value plus
the truthy `limit` of the last event of each range — the latter
regardless of whether the range also has `fixed` events — and the result
enumerates those candidates deduplicated in strictly increasing
lexicographic order. -/
theorem claim8_fixed_versions (f : Finding)
    (h : ∀ aff ∈ f.affected, ∀ r ∈ aff.ranges, r.events ≠ some []) :
    ∃ l, osvFixedVersions f = .ok l ∧
      l.Pairwise (fun a b => strLtB a b = true) ∧
      ∀ s, s ∈ l ↔ ∃ aff ∈ f.affected, ∃ r ∈ aff.ranges,
        ((∃ ev ∈ r.events.getD [], truthyOpt ev.fixed = some s) ∨
          rangeLimitIfPresent r = [s]) := by
  have hall : ∀ r ∈ f.affected.flatMap OsvAffected.ranges, r.events ≠ some [] := by
    intro r hr
    rcases List.mem_flatMap.mp hr with ⟨aff, haff, hr2⟩
    exact h aff haff r hr2
  refine ⟨pySortedSet ((f.affected.flatMap OsvAffected.ranges).flatMap
      (fun r => rangeFixes r ++ rangeLimitIfPresent r)), ?_,
      pairwise_pySortedSet _, ?_⟩
  · unfold osvFixedVersions
    rw [collectRanges_ok _ hall]
  · intro s
    rw [mem_pySortedSet]
    constructor
    · intro hs
      rcases List.mem_flatMap.mp hs with ⟨r, hr, hsr⟩
      rcases List.mem_flatMap.mp hr with ⟨aff, haff, hr2⟩
      refine ⟨aff, haff, r, hr2, ?_⟩
      rcases List.mem_append.mp hsr with hfix | hlim
      · exact Or.inl (List.mem_filterMap.mp hfix)
      · exact Or.inr ((mem_rangeLimitIfPresent r s).mp hlim)
    · rintro ⟨aff, haff, r, hr, hcase⟩
      refine List.mem_flatMap.mpr ⟨r, List.mem_flatMap.mpr ⟨aff, haff, hr⟩, ?_⟩
      rcases hcase with hfix | hlim
      · exact List.mem_append.mpr (Or.inl (List.mem_filterMap.mpr hfix))
      · exact List.mem_append.mpr
          (Or.inr ((mem_rangeLimitIfPresent r s).mpr hlim))

theorem claim8_fixed_versions_witness :
    (∀ aff ∈ c8Finding.affected, ∀ r ∈ aff.ranges, r.events ≠ some []) ∧
    (∃ l, osvFixedVersions c8Finding = .ok l ∧
      l.Pairwise (fun a b => strLtB a b = true) ∧
      ∀ s, s ∈ l ↔ ∃ aff ∈ c8Finding.affected, ∃ r ∈ aff.ranges,
        ((∃ ev ∈ r.events.getD [], truthyOpt ev.fixed = some s) ∨
          rangeLimitIfPresent r = [s])) :=
  ⟨by decide, claim8_fixed_versions c8Finding (by decide)⟩

/-! ## CPE split/join lemmas (C6) -/

theorem splitOnC_ne_nil (c : Char) : ∀ s : PyStr, splitOnC c s ≠ [] := by
  intro s
  induction s with
  | nil => simp [splitOnC]
  | cons x xs ih =>
    unfold splitOnC
    by_cases h : x = c
    · simp [h]
    · simp only [h, if_false]
      cases hs : splitOnC c xs with
      | nil => simp
      | cons hh tt => simp

theorem not_mem_splitOnC (c : Char) : ∀ s : PyStr, ∀ p ∈ splitOnC c s, c ∉ p := by
  intro s
  induction s with
  | nil =>
    intro p hp
    simp only [splitOnC, List.mem_singleton] at hp
    subst hp
    simp
  | cons x xs ih =>
    intro p hp
    unfold splitOnC at hp
    by_cases h : x = c
    · rw [if_pos h] at hp
      rcases List.mem_cons.mp hp with rfl | hp
      · simp
      · exact ih p hp
    · rw [if_neg h] at hp
      cases hs : splitOnC c xs with
      | nil => exact absurd hs (splitOnC_ne_nil c xs)
      | cons hh tt =>
        rw [hs] at hp
        rcases List.mem_cons.mp hp with rfl | hp
        · intro hcp
          rcases List.mem_cons.mp hcp with hcx | hch
          · exact h hcx.symm
          · exact ih hh (hs ▸ List.mem_cons_self hh tt) hch
        · exact ih p (hs ▸ List.mem_cons_of_mem hh hp)

theorem splitOnC_no_sep (c : Char) : ∀ s : PyStr, c ∉ s → splitOnC c s = [s] := by
  intro s
  induction s with
  | nil => intro _; rfl
  | cons x xs ih =>
    intro h
    have hx : ¬x = c := fun he => h (he ▸ List.mem_cons_self x xs)
    have hxs : c ∉ xs := fun hm => h (List.mem_cons_of_mem _ hm)
    unfold splitOnC
    rw [if_neg hx, ih hxs]

theorem splitOnC_append_sep (c : Char) : ∀ p t : PyStr, c ∉ p →
    splitOnC c (p ++ c :: t) = p :: splitOnC c t := by
  intro p
  induction p with
  | nil =>
    intro t _
    show splitOnC c (c :: t) = [] :: splitOnC c t
    simp [splitOnC]
  | cons x xs ih =>
    intro t h
    have hx : ¬x = c := fun he => h (he ▸ List.mem_cons_self x xs)
    have hxs : c ∉ xs := fun hm => h (List.mem_cons_of_mem _ hm)
    show splitOnC c (x :: (xs ++ c :: t)) = (x :: xs) :: splitOnC c t
    simp only [splitOnC]
    rw [if_neg hx, ih t hxs]

theorem splitOnC_joinC (c : Char) : ∀ l : List PyStr, l ≠ [] →
    (∀ p ∈ l, c ∉ p) → splitOnC c (joinC c l) = l := by
  intro l
  induction l with
  | nil => intro h _; exact absurd rfl h
  | cons p ps ih =>
    intro _ hall
    cases ps with
    | nil => exact splitOnC_no_sep c p (hall p (List.mem_cons_self p []))
    | cons q rest =>
      show splitOnC c (p ++ c :: joinC c (q :: rest)) = p :: (q :: rest)
      rw [splitOnC_append_sep c p _ (hall p (List.mem_cons_self p _))]
      rw [ih (by simp) (fun x hx => hall x (List.mem_cons_of_mem _ hx))]

theorem selectCpeParts_shape (nameL : PyStr) :
    ∀ items parts, selectCpeParts nameL items = some parts →
      (∃ cpe23, parts = splitOnC ':' cpe23) ∧
        cpeCandidateMatches nameL parts = true := by
  intro items
  induction items with
  | nil => intro parts h; cases h
  | cons item rest ih =>
    intro parts h
    unfold selectCpeParts at h
    split at h
    · exact ih parts h
    · rename_i cpe23 hcpe
      split at h
      · exact ih parts h
      · split at h
        · rename_i hmatch
          cases h
          exact ⟨⟨cpe23, rfl⟩, hmatch⟩
        · exact ih parts h

/-- A candidate whose cpeName yields a match for `zlib`. -/
def c6Items : List CpeItem := [⟨some "cpe:2.3:a:zlib:zlib".data⟩]

/-- A Debian-style version string containing an epoch colon. -/
def c6Version : PyStr := "1:1.2.13-1".data

def c6Out : PyStr := "cpe:2.3:a:zlib:zlib:1:1.2.13-1:*:*:*:*:*:*:*".data

/-- Counterexample to claim C6 as stated: injecting a version that
itself contains a colon produces a string with 14 colon-delimited
fields, not 13. -/
theorem claim6_counterexample :
    guessCpeForConan (.ok c6Items) "zlib".data c6Version = some c6Out ∧
    (splitOnC ':' c6Out).length = 14 ∧ (14 : Nat) ≠ 13 :=
  ⟨by decide, by decide, by decide⟩

/-- Claim C6 (amended): provided the version string contains no colon
(true of every well-formed package version), every successful CPE
resolution yields a string with exactly 13 colon-delimited fields, the
version (or `*` when the version is empty) at zero-based field index 5,
and `*` at every field beyond the matched candidate's own fields (other
than index 5). -/
theorem claim6_cpe_thirteen_fields (candidates : Except Unit (List CpeItem))
    (name version : PyStr) (hv : ':' ∉ version) (out : PyStr)
    (hout : guessCpeForConan candidates name version = some out) :
    (splitOnC ':' out).length = 13 ∧
    (splitOnC ':' out).getD 5 [] = (if version = [] then ['*'] else version) ∧
    ∃ items parts, candidates = .ok items ∧
      selectCpeParts (pyLower name) items = some parts ∧
      ∀ i, parts.length ≤ i → i < 13 → i ≠ 5 →
        (splitOnC ':' out).getD i [] = ['*'] := by
  unfold guessCpeForConan at hout
  split at hout
  · exact absurd hout (by simp)
  · rename_i items
    split at hout
    · exact absurd hout (by simp)
    · rename_i best hsel
      obtain ⟨⟨cpe23, hparts⟩, hmatch⟩ := selectCpeParts_shape (pyLower name) items best hsel
      have hlen5 : 5 ≤ best.length := by
        unfold cpeCandidateMatches at hmatch
        simp only [Bool.and_eq_true, decide_eq_true_eq] at hmatch
        exact hmatch.1.1
      have hbestfree : ∀ p ∈ best, ':' ∉ p := by
        rw [hparts]
        exact not_mem_splitOnC ':' cpe23
      have hout2 : out =
          joinC ':' (((best ++ List.replicate (13 - best.length) ['*']).set 5
            (if version = [] then ['*'] else version)).take 13) := by
        injection hout with houteq
        exact houteq.symm
      have hvfree : ':' ∉ (if version = [] then (['*'] : PyStr) else version) := by
        by_cases h : version = []
        · simp only [h, if_true]
          decide
        · simpa [h] using hv
      have hplen : 13 ≤ (best ++ List.replicate (13 - best.length) (['*'] : PyStr)).length := by
        rw [List.length_append, List.length_replicate]
        omega
      have hslen :
          (((best ++ List.replicate (13 - best.length) (['*'] : PyStr)).set 5
            (if version = [] then ['*'] else version)).length) =
            (best ++ List.replicate (13 - best.length) (['*'] : PyStr)).length := by
        rw [List.length_set]
      have hflen :
          ((((best ++ List.replicate (13 - best.length) (['*'] : PyStr)).set 5
            (if version = [] then ['*'] else version)).take 13).length) = 13 := by
        rw [List.length_take, hslen]
        omega
      have hffree : ∀ p ∈ (((best ++ List.replicate (13 - best.length) (['*'] : PyStr)).set 5
          (if version = [] then ['*'] else version)).take 13), ':' ∉ p := by
        intro p hp
        have hp2 := List.mem_of_mem_take hp
        rcases List.mem_or_eq_of_mem_set hp2 with hp3 | rfl
        · rcases List.mem_append.mp hp3 with hb | hr
          · exact hbestfree p hb
          · rw [List.eq_of_mem_replicate hr]
            decide
        · exact hvfree
      have hsplit : splitOnC ':' out =
          (((best ++ List.replicate (13 - best.length) (['*'] : PyStr)).set 5
            (if version = [] then ['*'] else version)).take 13) := by
        rw [hout2]
        refine splitOnC_joinC ':' _ ?_ hffree
        intro h0
        rw [h0] at hflen
        cases hflen
      refine ⟨by rw [hsplit]; exact hflen, ?_, items, best, rfl, hsel, ?_⟩
      · rw [hsplit]
        have h5lt : 5 <
            ((((best ++ List.replicate (13 - best.length) (['*'] : PyStr)).set 5
              (if version = [] then ['*'] else version)).take 13)).length := by
          rw [hflen]
          omega
        rw [List.getD_eq_getElem _ _ h5lt, List.getElem_take]
        exact List.getElem_set_self (by omega)
      · intro i hbi hi13 hi5
        rw [hsplit]
        have hilt : i <
            ((((best ++ List.replicate (13 - best.length) (['*'] : PyStr)).set 5
              (if version = [] then ['*'] else version)).take 13)).length := by
          rw [hflen]
          omega
        rw [List.getD_eq_getElem _ _ hilt, List.getElem_take,
          List.getElem_set_ne (fun h => hi5 h.symm),
          List.getElem_append_right hbi]
        exact List.getElem_replicate _ _

def c6WItems : List CpeItem := [⟨some "cpe:2.3:a:openssl:openssl".data⟩]

def c6WOut : PyStr := "cpe:2.3:a:openssl:openssl:1.1.1f:*:*:*:*:*:*:*".data

theorem claim6_cpe_thirteen_fields_witness :
    (':' ∉ "1.1.1f".data) ∧
    ((splitOnC ':' c6WOut).length = 13 ∧
     (splitOnC ':' c6WOut).getD 5 [] =
       (if "1.1.1f".data = ([] : PyStr) then ['*'] else "1.1.1f".data) ∧
     ∃ items parts, (.ok c6WItems : Except Unit (List CpeItem)) = .ok items ∧
       selectCpeParts (pyLower "openssl".data) items = some parts ∧
       ∀ i, parts.length ≤ i → i < 13 → i ≠ 5 →
         (splitOnC ':' c6WOut).getD i [] = ['*']) :=
  ⟨by decide, claim6_cpe_thirteen_fields (.ok c6WItems) "openssl".data "1.1.1f".data
    (by decide) c6WOut (by decide)⟩

end CveSecurityCheck
